import Mathlib

/-!
# Verification of the release reconciliation engine (gh-migrate-releases)

A shallow embedding of `pkg/sync/sync.go` and the API helpers of the
`internal/api` package (release/asset existence checks, create/conflict
handling, download/upload file lifecycle), together with proofs of the
specification's claims about them.

Network calls are abstracted as an `Api` record over an explicit world
state `σ`; the engine is the literal translation of the loop body of
`migrateRepositoryReleases` (sync.go lines 100-239).  A concrete,
well-behaved target server (`goodApi` over `ServerState`) instantiates
the abstraction for whole-run theorems such as idempotency.
-/

namespace GhMigrateReleases

/-- An asset: identity for matching is the pair (name, size)
(`internal/api` `AssetExists`). -/
structure Asset where
  name : String
  size : Int
  deriving Repr, DecidableEq

/-- A release as the engine sees it (`github.RepositoryRelease`):
numeric id, tag name, display name, target commitish, body text, the
upload URL of the target side (modelled by the numeric key the server
routes uploads with), and the attached assets. -/
structure Release where
  id : Int
  tagName : String
  name : String
  targetCommitish : String
  body : String
  uploadURL : Int
  assets : List Asset
  deriving Repr, DecidableEq

/-- The network calls the engine issues, recorded as a trace. -/
inductive Event where
  | getByTagCall (tag : String)
  | createCall (tag : String)
  | downloadCall (assetName : String)
  | uploadCall (url : Int) (assetName : String)
  | editLatestCall (id : Int)
  deriving Repr, DecidableEq

/-- Outcome of a `CreateRelease` call (part_000 lines 257-271 /
sync.go lines 163-180): success with the created release, an error whose
message contains "already exists" (the mapped `already_exists` API
conflict), or any other error. Each outcome carries the world after the
call. -/
inductive CreateResult (σ : Type) where
  | ok (w : σ) (r : Release)
  | conflict (w : σ)
  | failed (w : σ)
  deriving Repr, DecidableEq

/-- The remote directory the engine talks to, as explicit state passing
over a world `σ`.  `getReleaseByTag` returns `none` both for a 404 and
for any other error: the engine treats the two identically at both of
its call sites (`ReleaseExists` part_000:134-137, and the conflict
re-fetch sync.go:168-172).  `download`/`upload`/`editLatest` return a
success flag. -/
structure Api (σ : Type) where
  getReleaseByTag : σ → String → σ × Option Release
  createRelease : σ → Release → CreateResult σ
  download : σ → Asset → σ × Bool
  upload : σ → Int → Asset → σ × Bool
  editLatest : σ → Int → σ × Bool

/-- part_000:97-109 — `AssetExists` checks if an asset with the same
name and size already exists in a release. -/
def AssetExists (release : Release) (assetName : String) (assetSize : Int) : Bool :=
  release.assets.any fun existingAsset =>
    existingAsset.name == assetName && existingAsset.size == assetSize

/-- part_000:129-148 — `ReleaseExists` looks the source release's tag up
on the target and then compares display name and target commitish;
returns the release found (if any) and whether it counts as existing.
A lookup failure (`none`) yields `(none, false)`. -/
def ReleaseExists (api : Api σ) (w : σ) (release : Release) :
    σ × Option Release × Bool :=
  match api.getReleaseByTag w release.tagName with
  | (w, none) => (w, none, false)
  | (w, some existingRelease) =>
    let nameMatches := existingRelease.name == release.name
    let commitMatches := existingRelease.targetCommitish == release.targetCommitish
    if nameMatches && commitMatches then
      (w, some existingRelease, true)
    else
      (w, some existingRelease, false)

/-- Which branch of sync.go lines 153-181 a release took. -/
inductive Branch where
  | matched
  | created
  | conflictReused
  | conflictSkipped
  | createFailed
  deriving Repr, DecidableEq

/-- Instrumentation: one processed source release (after its body
transforms), the branch taken, and the target release it resolved to
(`none` when the loop `continue`d without a target). -/
structure RelRecord where
  src : Release
  branch : Branch
  resolved : Option Release
  deriving Repr, DecidableEq

/-- The engine's running state: the world, the failure counter, the
tracked id for the latest-release edit (sync.go:136), the network trace
and the per-release records. -/
structure EngineState (σ : Type) where
  world : σ
  failed : Nat
  newLatestReleaseID : Int
  trace : List Event
  records : List RelRecord
  deriving Repr

def addRecord (st : EngineState σ) (src : Release) (branch : Branch)
    (resolved : Option Release) : EngineState σ :=
  { st with records := st.records ++ [⟨src, branch, resolved⟩] }

/-- sync.go lines 153-181: decide the target release for one (already
transformed) source release.  `none` means the Go loop `continue`d:
conflict whose re-fetch failed, or a non-conflict create failure (which
increments `failed`). -/
def resolveTarget (api : Api σ) (st : EngineState σ) (release : Release) :
    EngineState σ × Option Release :=
  let res := ReleaseExists api st.world release
  let st := { st with
    world := res.1,
    trace := st.trace ++ [Event.getByTagCall release.tagName] }
  if res.2.2 then
    (addRecord st release Branch.matched res.2.1, res.2.1)
  else
    let st := { st with trace := st.trace ++ [Event.createCall release.tagName] }
    match api.createRelease st.world release with
    | CreateResult.ok w newRelease =>
      (addRecord { st with world := w } release Branch.created (some newRelease),
       some newRelease)
    | CreateResult.conflict w =>
      let st := { st with
        world := w,
        trace := st.trace ++ [Event.getByTagCall release.tagName] }
      match api.getReleaseByTag st.world release.tagName with
      | (w, none) =>
        (addRecord { st with world := w } release Branch.conflictSkipped none, none)
      | (w, some existingRelease) =>
        (addRecord { st with world := w } release Branch.conflictReused
           (some existingRelease), some existingRelease)
    | CreateResult.failed w =>
      (addRecord { st with world := w, failed := st.failed + 1 }
         release Branch.createFailed none, none)

/-- sync.go lines 189-212 (one iteration): skip the asset when it
already exists on the target release snapshot, else download it and —
if the download succeeded — upload it to the snapshot's upload URL.
Download and upload failures are logged and skipped. -/
def syncAssetStep (api : Api σ) (newRelease : Release)
    (st : EngineState σ) (asset : Asset) : EngineState σ :=
  if AssetExists newRelease asset.name asset.size then
    st
  else
    let res := api.download st.world asset
    let st := { st with
      world := res.1,
      trace := st.trace ++ [Event.downloadCall asset.name] }
    if res.2 then
      let res2 := api.upload st.world newRelease.uploadURL asset
      { st with
        world := res2.1,
        trace := st.trace ++ [Event.uploadCall newRelease.uploadURL asset.name] }
    else
      st

/-- Modelled from the spec: the body transforms of the `internal/mapping`
package (`AddSourceTimeStamps`, `ModifyReleaseBody`, sync.go:144-151) are
not part of the repository's staged files; the spec treats each as a pure
text transform `string -> string` applied to the release body. -/
def transformRelease (f1 f2 : String → String) (release : Release) : Release :=
  { release with body := f2 (f1 release.body) }

/-- sync.go lines 139-213: one iteration of the release loop: body
transforms, target resolution, latest-id tracking (line 184), and the
asset loop. -/
def processRelease (api : Api σ) (f1 f2 : String → String) (latestID : Int)
    (st : EngineState σ) (release : Release) : EngineState σ :=
  let release := transformRelease f1 f2 release
  match resolveTarget api st release with
  | (st, none) => st
  | (st, some newRelease) =>
    let st :=
      if latestID != 0 && release.id == latestID then
        { st with newLatestReleaseID := newRelease.id }
      else st
    release.assets.foldl (syncAssetStep api newRelease) st

/-- sync.go lines 120-127: the latest-release id for comparison; it
stays `0` when `GetSourceRepositoryLatestRelease` failed (`none`). -/
def latestIDOf : Option Release → Int
  | none => 0
  | some r => r.id

/-- sync.go lines 100-239 with the two source fetches abstracted as
inputs: `releases` is what `GetSourceRepositoryReleases` returned and
`latestRelease` the result of `GetSourceRepositoryLatestRelease`
(`none` = the call failed, leaving `latestID = 0`, lines 121-127).
Returns the final engine state plus the pair `(releasesCount, failed)`
the Go function returns. -/
def migrateRepositoryReleases (api : Api σ) (f1 f2 : String → String)
    (releases : List Release) (latestRelease : Option Release) (w : σ) :
    EngineState σ × Nat × Nat :=
  let latestID : Int := latestIDOf latestRelease
  let releasesCount := releases.length
  let st0 : EngineState σ :=
    { world := w, failed := 0, newLatestReleaseID := 0, trace := [], records := [] }
  let st := releases.foldl (processRelease api f1 f2 latestID) st0
  let st :=
    if st.newLatestReleaseID != 0 then
      let res := api.editLatest st.world st.newLatestReleaseID
      { st with
        world := res.1,
        trace := st.trace ++ [Event.editLatestCall st.newLatestReleaseID] }
    else st
  (st, releasesCount, st.failed)

/-! ## A concrete well-behaved target server -/

/-- The target repository's release set plus a fresh-id counter. -/
structure ServerState where
  releases : List Release
  nextId : Int
  deriving Repr, DecidableEq

def serverGetByTag (w : ServerState) (tag : String) :
    ServerState × Option Release :=
  (w, w.releases.find? fun r => r.tagName == tag)

/-- Creating a release whose tag already exists yields the
`already_exists` conflict; otherwise the server stores a fresh release
(fresh id, upload URL routing to it, no assets) built from the request's
tag, name, commitish and body. -/
def serverCreate (w : ServerState) (r : Release) : CreateResult ServerState :=
  if w.releases.any (fun t => t.tagName == r.tagName) then
    CreateResult.conflict w
  else
    let newR : Release :=
      { id := w.nextId, tagName := r.tagName, name := r.name,
        targetCommitish := r.targetCommitish, body := r.body,
        uploadURL := w.nextId, assets := [] }
    CreateResult.ok { releases := w.releases ++ [newR], nextId := w.nextId + 1 } newR

def serverUpload (w : ServerState) (url : Int) (a : Asset) :
    ServerState × Bool :=
  ({ w with
     releases := w.releases.map fun r =>
       if r.uploadURL == url then { r with assets := r.assets ++ [a] } else r },
   true)

def goodApi : Api ServerState where
  getReleaseByTag := serverGetByTag
  createRelease := serverCreate
  download := fun w _ => (w, true)
  upload := serverUpload
  editLatest := fun w _ => (w, true)

/-- The empty target repository an idempotency run starts from; ids
start at 1 so that `0` keeps its sentinel meaning in the engine. -/
def emptyServer : ServerState := { releases := [], nextId := 1 }

/-- Well-formedness of a target server: ids and upload keys the host
assigns are positive (so the engine's `0` sentinel is never a real id)
and the fresh counter is ahead of every stored release. -/
def ServerState.WF (w : ServerState) : Prop :=
  1 ≤ w.nextId ∧ ∀ r ∈ w.releases, 1 ≤ r.id

/-- Engine-state invariant over the well-behaved server: the world is
well-formed and every resolved target release recorded so far carries a
positive (host-assigned) id. -/
def StWF (st : EngineState ServerState) : Prop :=
  st.world.WF ∧ ∀ rec ∈ st.records, ∀ t, rec.resolved = some t → 1 ≤ t.id

/-! ## Event predicates over the trace -/

def Event.isCreate : Event → Bool
  | Event.createCall _ => true
  | _ => false

def Event.isDownload : Event → Bool
  | Event.downloadCall _ => true
  | _ => false

def Event.isUpload : Event → Bool
  | Event.uploadCall _ _ => true
  | _ => false

def Event.isEditLatest : Event → Bool
  | Event.editLatestCall _ => true
  | _ => false

/-! ## Derived descriptions used by the theorems -/

/-- The release the well-behaved server stores on a successful create:
the request's tag, name, commitish and body under a fresh id, with no
assets yet. -/
def freshRelease (n : Int) (r : Release) : Release :=
  { id := n, tagName := r.tagName, name := r.name,
    targetCommitish := r.targetCommitish, body := r.body,
    uploadURL := n, assets := [] }

/-- The release `serverCreate` stores for source release `s` under fresh
id `n`, with the assets the engine subsequently uploads to it. -/
def createdRelease (f1 f2 : String → String) (n : Int) (s : Release) : Release :=
  { id := n, tagName := s.tagName, name := s.name,
    targetCommitish := s.targetCommitish, body := f2 (f1 s.body),
    uploadURL := n, assets := s.assets }

/-- The target repository a run over an empty server builds: one created
release per source release, ids counting up from `n`. -/
def buildTarget (f1 f2 : String → String) (n : Int) : List Release → List Release
  | [] => []
  | s :: rest => createdRelease f1 f2 n s :: buildTarget f1 f2 (n + 1) rest

/-- How one processed release updates the engine's
`newLatestReleaseID` (the single assignment site is sync.go:184-186,
reached only when the release resolved to a target). -/
def latestStep (latestID : Int) (acc : Int) (rec : RelRecord) : Int :=
  if latestID != 0 && rec.src.id == latestID then
    match rec.resolved with
    | some t => t.id
    | none => acc
  else acc

/-! ## Scripted directories used to exercise the conflict paths -/

/-- A degenerate directory: every tag lookup misses and every create
conflicts, exercising the conflict-then-failed-refetch path. -/
def conflictLostApi : Api Unit where
  getReleaseByTag := fun w _ => (w, none)
  createRelease := fun w _ => CreateResult.conflict w
  download := fun w _ => (w, true)
  upload := fun w _ _ => (w, true)
  editLatest := fun w _ => (w, true)

/-- A directory holding one fixed release: lookups return it, creates
conflict, exercising the conflict-then-reuse path when the fixed
release's display name matches no source release. -/
def conflictReuseApi (t : Release) : Api Unit where
  getReleaseByTag := fun w _ => (w, some t)
  createRelease := fun w _ => CreateResult.conflict w
  download := fun w _ => (w, true)
  upload := fun w _ _ => (w, true)
  editLatest := fun w _ => (w, true)

/-- Concrete source releases used by the closed witness theorems. -/
def wRelA : Release :=
  ⟨10, "v1.0", "A", "main", "body-a", 0, [⟨"build.zip", 1024⟩, ⟨"doc.pdf", 77⟩]⟩

def wRelB : Release :=
  ⟨20, "v2.0", "B", "main", "body-b", 0, [⟨"build.zip", 1024⟩]⟩

/-- A target-side release whose display name matches no witness source. -/
def wOther : Release := ⟨5, "v1.0", "other", "main", "x", 7, []⟩

/-- The initial engine state over the trivial world. -/
def stU : EngineState Unit := ⟨(), 0, 0, [], []⟩

/-! ## The scratch-file lifecycle (Asset Transfer Pipeline) -/

/-- part_000:30 — the scratch directory name. -/
def tmpDir : String := "tmp"

/-- Local scratch storage: the set of file paths present on disk. -/
structure FsState where
  files : List String
  deriving Repr, DecidableEq

/-- The HTTP outcome of the upload POST (part_000:317-326): the
"created" status, any other status code, or a transport error. -/
inductive UploadHttp where
  | created
  | otherStatus
  | transportError
  deriving Repr, DecidableEq

/-- part_000:273-335 — `UploadAssetViaURL`, as its scratch-file
lifecycle: open `tmp/<name>` (error when absent), POST the body, and on
a "created" response delete the file; on any other status or a
transport error return the error with the file untouched.  The
URL/header plumbing (lines 291-315) does not touch the filesystem and
is elided.  Returns the filesystem and `true` on success / `false` when
the Go function returns a non-nil error. -/
def UploadAssetViaURL (fs : FsState) (resp : UploadHttp) (asset : Asset) :
    FsState × Bool :=
  let fileName := tmpDir ++ "/" ++ asset.name
  if fs.files.contains fileName then
    match resp with
    | UploadHttp.transportError => (fs, false)
    | UploadHttp.otherStatus => (fs, false)
    | UploadHttp.created =>
      ({ files := fs.files.filter fun f => f != fileName }, true)
  else
    (fs, false)

/-- part_000:150-170 with `DownloadFileFromURL` (226-255): ensure `tmp`
exists, create `tmp/<name>` (`os.Create`, so the file exists from this
point on), then fetch; a non-200 status or transport failure returns an
error with the possibly-empty file left in place. -/
def DownloadReleaseAssets (fs : FsState) (httpOk : Bool) (asset : Asset) :
    FsState × Bool :=
  let fileName := tmpDir ++ "/" ++ asset.name
  let fs : FsState :=
    { files := if fs.files.contains fileName then fs.files else fs.files ++ [fileName] }
  (fs, httpOk)

/-! ## Process-abort model (SyncReleases / checkVars) -/

/-- sync.go:89-98 — true when `checkVars` calls `os.Exit(1)`: both a
repository and a repository list given, or a repository given without a
source organization. -/
def checkVarsAborts (repository repositoryList sourceOrganization : String) : Bool :=
  if repository != "" && repositoryList != "" then true
  else if repository != "" && sourceOrganization == "" then true
  else false

/-- The failure-relevant outcomes of the migration phase of one run
(sync.go:100-239 with the part_000 helpers it calls), each flag
collapsing "did any such step during the run fail" over all
repositories processed:
`clientOk` — every `newGHRestClient` construction succeeded (a failure
is `panic(err)`, part_000:39 and 48);
`fetchReleasesOk` — every `GetSourceRepositoryReleases` call succeeded
(a failure hits `pterm.Fatal`, sync.go:116, whose print panics);
`latestErr` / `latestRespNil` — some
`GetSourceRepositoryLatestRelease` call returned an error, and whether
its HTTP response was nil: an error with a nil response dereferences
nil at part_000:87 (panic), an error with a response is only a logged
warning (sync.go:124);
`downloadReqOk` — every `http.NewRequest` inside `DownloadFileFromURL`
succeeded (a failure is a panic, part_000:236);
`anyCreateFailed` / `anyAssetHttpFailed` — some release creation, or
some asset download/upload HTTP exchange, failed: these are logged and
counted only (sync.go:174-179 and 198-211). -/
structure MigrationRunEvents where
  clientOk : Bool
  fetchReleasesOk : Bool
  latestErr : Bool
  latestRespNil : Bool
  downloadReqOk : Bool
  anyCreateFailed : Bool
  anyAssetHttpFailed : Bool
  deriving Repr, DecidableEq

/-- Whether the migration phase aborts the process, in the order the
code reaches the abort sites: a client-construction panic, the fatal
release-list fetch print, the nil-response dereference in the latest
fetch, or a download request-creation panic.  Release-creation and
asset HTTP failures never abort. -/
def migrateRepositoryAborts (ev : MigrationRunEvents) : Bool :=
  if !ev.clientOk then true
  else if !ev.fetchReleasesOk then true
  else if ev.latestErr && ev.latestRespNil then true
  else if !ev.downloadReqOk then true
  else false

/-- sync.go:16-57 — whether `SyncReleases` ends in a non-zero process
abort.  `listReadOk` is the outcome of `ReadRepositoryListFromFile`
(a failure hits `os.Exit(1)`, line 27); the migration phase's abort
behavior is `migrateRepositoryAborts` over the run's events. -/
def syncReleasesAborts (repository repositoryList sourceOrganization : String)
    (listReadOk : Bool) (ev : MigrationRunEvents) : Bool :=
  if checkVarsAborts repository repositoryList sourceOrganization then true
  else if repositoryList != "" then
    if !listReadOk then true else migrateRepositoryAborts ev
  else if repository != "" then migrateRepositoryAborts ev
  else true

/-! ## The two source-side fetches, at the level of one HTTP exchange -/

/-- Outcome of a Go function call in the model: a returned value, a
returned error, or a runtime panic (nil-pointer dereference). -/
inductive GoResult (α : Type) where
  | ok (a : α)
  | err (msg : String)
  | panicked
  deriving Repr, DecidableEq

/-- part_000:79-94 — `GetSourceRepositoryLatestRelease` with the
underlying client call abstracted as inputs: `hasErr` is whether the
call returned a non-nil error, `resp` the HTTP response (`none` = nil
response, `some code` = its status code) and `rel` the release on
success.  When the error is non-nil the code reads `resp.StatusCode`
without a nil guard, so a nil response is a nil-pointer dereference. -/
def GetSourceRepositoryLatestRelease (hasErr : Bool) (resp : Option Nat)
    (rel : Release) : GoResult Release :=
  if hasErr then
    match resp with
    | none => GoResult.panicked
    | some code =>
      if code == 404 then GoResult.err "no releases found for repository"
      else GoResult.err "unable to get latest release"
  else GoResult.ok rel

/-- part_000:112-126 — `GetReleaseByTag`, same shape, but the 404 test
is guarded by `resp != nil`, so a nil response falls through to the
generic returned error instead of dereferencing. -/
def GetReleaseByTag (hasErr : Bool) (resp : Option Nat) (rel : Release) :
    GoResult Release :=
  if hasErr then
    match resp with
    | some code =>
      if code == 404 then GoResult.err "release not found for tag"
      else GoResult.err "unable to get release by tag"
    | none => GoResult.err "unable to get release by tag"
  else GoResult.ok rel

/-! ## Basic lemmas -/

@[simp]
theorem transformRelease_id (f1 f2 : String → String) (r : Release) :
    (transformRelease f1 f2 r).id = r.id := rfl

@[simp]
theorem transformRelease_tagName (f1 f2 : String → String) (r : Release) :
    (transformRelease f1 f2 r).tagName = r.tagName := rfl

@[simp]
theorem transformRelease_name (f1 f2 : String → String) (r : Release) :
    (transformRelease f1 f2 r).name = r.name := rfl

@[simp]
theorem transformRelease_targetCommitish (f1 f2 : String → String) (r : Release) :
    (transformRelease f1 f2 r).targetCommitish = r.targetCommitish := rfl

@[simp]
theorem transformRelease_assets (f1 f2 : String → String) (r : Release) :
    (transformRelease f1 f2 r).assets = r.assets := rfl

theorem AssetExists_iff (r : Release) (n : String) (s : Int) :
    AssetExists r n s = true ↔ ∃ a ∈ r.assets, a.name = n ∧ a.size = s := by
  simp [AssetExists, List.any_eq_true]

theorem AssetExists_of_mem {r : Release} {a : Asset} (h : a ∈ r.assets) :
    AssetExists r a.name a.size = true :=
  (AssetExists_iff r a.name a.size).mpr ⟨a, h, rfl, rfl⟩

theorem AssetExists_of_assets_nil {r : Release} (h : r.assets = []) (n : String) (s : Int) :
    AssetExists r n s = false := by
  simp [AssetExists, h]

/-! ## Claim theorems -/

/-- C9: when the latest-release fetch returns an error together with a
nil HTTP response (a transport-level failure before any status code
exists), `GetSourceRepositoryLatestRelease` dereferences the nil
response and panics instead of returning an error, while
`GetReleaseByTag` guards the response against nil and returns an error
for every response shape. -/
theorem C9_latest_fetch_nil_response_panics :
    (∀ rel : Release, GetSourceRepositoryLatestRelease true none rel = GoResult.panicked)
    ∧ (∀ (rel : Release) (resp : Option Nat),
        GetReleaseByTag true resp rel ≠ GoResult.panicked)
    ∧ (∀ rel : Release, GetReleaseByTag true none rel
        = GoResult.err "unable to get release by tag") := by
  refine ⟨fun rel => rfl, fun rel resp => ?_, fun rel => rfl⟩
  cases resp with
  | none => simp [GetReleaseByTag]
  | some code =>
    by_cases h : code == 404 <;> simp [GetReleaseByTag, h]

/-- C7: with the scratch file `tmp/<assetName>` present, a successful
upload (the "created" status) deletes it from disk, while a failed
upload (any other status, or a transport error) returns the error to
the caller and leaves the scratch file in place. -/
theorem C7_scratch_file_lifecycle (fs : FsState) (asset : Asset) (resp : UploadHttp)
    (hpresent : fs.files.contains (tmpDir ++ "/" ++ asset.name) = true) :
    (resp = UploadHttp.created →
      (UploadAssetViaURL fs resp asset).2 = true
      ∧ (UploadAssetViaURL fs resp asset).1.files.contains (tmpDir ++ "/" ++ asset.name)
          = false)
    ∧ (resp ≠ UploadHttp.created →
      (UploadAssetViaURL fs resp asset).2 = false
      ∧ (UploadAssetViaURL fs resp asset).1 = fs) := by
  have hmem : (tmpDir ++ "/" ++ asset.name) ∈ fs.files := by
    simpa using hpresent
  constructor
  · rintro rfl
    refine ⟨by simp [UploadAssetViaURL, hmem], ?_⟩
    simp [UploadAssetViaURL, hmem, List.mem_filter]
  · intro hne
    cases resp with
    | created => exact absurd rfl hne
    | otherStatus => exact ⟨by simp [UploadAssetViaURL, hmem], by simp [UploadAssetViaURL, hmem]⟩
    | transportError => exact ⟨by simp [UploadAssetViaURL, hmem], by simp [UploadAssetViaURL, hmem]⟩

/-- C7 witness: an upload of `build.zip` with the scratch file present
removes the file on success and keeps it, with an error, on a failed
status. -/
theorem C7_scratch_file_lifecycle_witness :
    (FsState.mk ["tmp/build.zip"]).files.contains (tmpDir ++ "/" ++ "build.zip") = true
    ∧ ((UploadHttp.created = UploadHttp.created →
        (UploadAssetViaURL (FsState.mk ["tmp/build.zip"]) UploadHttp.created ⟨"build.zip", 1024⟩).2 = true
        ∧ (UploadAssetViaURL (FsState.mk ["tmp/build.zip"]) UploadHttp.created ⟨"build.zip", 1024⟩).1.files.contains
            (tmpDir ++ "/" ++ "build.zip") = false)
      ∧ (UploadHttp.created ≠ UploadHttp.created →
        (UploadAssetViaURL (FsState.mk ["tmp/build.zip"]) UploadHttp.created ⟨"build.zip", 1024⟩).2 = false
        ∧ (UploadAssetViaURL (FsState.mk ["tmp/build.zip"]) UploadHttp.created ⟨"build.zip", 1024⟩).1
            = FsState.mk ["tmp/build.zip"])) :=
  ⟨by decide, C7_scratch_file_lifecycle (FsState.mk ["tmp/build.zip"]) ⟨"build.zip", 1024⟩
      UploadHttp.created (by decide)⟩

/-- C3: an asset of a source release is skipped — neither downloaded
nor uploaded — iff the matched target release carries an asset with
exactly the same name and the same byte size; when no such asset exists
(including a same-name, different-size asset) the engine transfers it,
issuing its download call.  The comparison is by the (name, size) pair
only, never a content hash. -/
theorem C3_asset_name_size_dedup {σ : Type} (api : Api σ) (newRelease : Release)
    (st : EngineState σ) (asset : Asset) :
    (AssetExists newRelease asset.name asset.size = true
      ↔ ∃ a ∈ newRelease.assets, a.name = asset.name ∧ a.size = asset.size)
    ∧ (AssetExists newRelease asset.name asset.size = true →
        syncAssetStep api newRelease st asset = st)
    ∧ (AssetExists newRelease asset.name asset.size = false →
        ∃ rest, (syncAssetStep api newRelease st asset).trace
          = st.trace ++ Event.downloadCall asset.name :: rest) := by
  refine ⟨AssetExists_iff newRelease asset.name asset.size, fun h => ?_, fun h => ?_⟩
  · simp [syncAssetStep, h]
  · simp only [syncAssetStep, h, Bool.false_eq_true, if_false]
    cases hdl : (api.download st.world asset).2 with
    | false => exact ⟨[], by simp [hdl]⟩
    | true =>
      exact ⟨[Event.uploadCall newRelease.uploadURL asset.name], by simp [hdl]⟩

/-- The migration phase aborts exactly on a client-construction
failure, a failed release-list fetch, a latest-release fetch error
whose HTTP response is nil, or a download request-creation failure. -/
theorem migrateRepositoryAborts_iff (ev : MigrationRunEvents) :
    migrateRepositoryAborts ev = true
    ↔ ev.clientOk = false ∨ ev.fetchReleasesOk = false
      ∨ (ev.latestErr = true ∧ ev.latestRespNil = true)
      ∨ ev.downloadReqOk = false := by
  obtain ⟨c, f, le, ln, d, a1, a2⟩ := ev
  cases c <;> cases f <;> cases le <;> cases ln <;> cases d <;>
    simp [migrateRepositoryAborts]

/-- C8 counterexample: with a valid single-repository configuration
(repository "repo", source organization "org", no repository list) the
process still aborts when the source release-list fetch fails
(`pterm.Fatal` at sync.go:116 panics) and likewise when the
latest-release fetch errors with a nil HTTP response (nil dereference
at part_000:87) — refuting the claim that a non-zero abort occurs only
for configuration-validation failures or an unreadable repository-list
file. -/
theorem C8_abort_beyond_config_counterexample :
    syncReleasesAborts "repo" "" "org" true
        ⟨true, false, false, false, true, false, false⟩ = true
    ∧ syncReleasesAborts "repo" "" "org" true
        ⟨true, true, true, true, true, false, false⟩ = true
    ∧ checkVarsAborts "repo" "" "org" = false
    ∧ ¬("repo" = "" ∧ ("" : String) = "") := by
  decide

/-- C8 amended: a non-zero process abort occurs exactly for the
configuration-validation failures (both a repository and a list given,
a repository without a source organization, or neither given), an
unreadable repository-list file, or — in a run that got past the
configuration checks — a REST client construction failure, a failed
source release-list fetch, a latest-release fetch error with a nil
HTTP response, or a download request-creation failure; and the abort
outcome is independent of release-creation and asset HTTP failures,
which are counted and logged only. -/
theorem C8_abort_conditions (repository repositoryList sourceOrganization : String)
    (listReadOk : Bool) (ev : MigrationRunEvents) :
    (syncReleasesAborts repository repositoryList sourceOrganization
        listReadOk ev = true
      ↔ checkVarsAborts repository repositoryList sourceOrganization = true
        ∨ (repository = "" ∧ repositoryList = "")
        ∨ (repositoryList ≠ "" ∧ listReadOk = false)
        ∨ (checkVarsAborts repository repositoryList sourceOrganization = false
           ∧ (repositoryList ≠ "" ∧ listReadOk = true
              ∨ repositoryList = "" ∧ repository ≠ "")
           ∧ (ev.clientOk = false ∨ ev.fetchReleasesOk = false
              ∨ (ev.latestErr = true ∧ ev.latestRespNil = true)
              ∨ ev.downloadReqOk = false)))
    ∧ ∀ (ev2 : MigrationRunEvents) (b1 b2 : Bool),
        migrateRepositoryAborts
            { ev2 with anyCreateFailed := b1, anyAssetHttpFailed := b2 }
          = migrateRepositoryAborts ev2 := by
  constructor
  · by_cases hr : repository = "" <;> by_cases hl : repositoryList = "" <;>
      by_cases ho : sourceOrganization = "" <;> cases listReadOk <;>
        simp [syncReleasesAborts, checkVarsAborts, hr, hl, ho, bne_iff_ne,
          migrateRepositoryAborts_iff]
  · intro ev2 b1 b2
    obtain ⟨c, f, le, ln, d, a1, a2⟩ := ev2
    simp [migrateRepositoryAborts]

/-- C2: the engine judges a target release equivalent to a source
release iff the lookup by the source's tag name finds a release whose
display name and target commitish both equal the source's; when
equivalent, the found release itself is reused as the target and no
createRelease call is issued, with the failure counter untouched. -/
theorem C2_target_equivalence {σ : Type} (api : Api σ) (st : EngineState σ)
    (release : Release) :
    ((ReleaseExists api st.world release).2.2 = true
      ↔ ∃ t, (api.getReleaseByTag st.world release.tagName).2 = some t
          ∧ t.name = release.name ∧ t.targetCommitish = release.targetCommitish)
    ∧ ((ReleaseExists api st.world release).2.2 = true →
        (resolveTarget api st release).2 = (api.getReleaseByTag st.world release.tagName).2
        ∧ (resolveTarget api st release).1.trace.filter Event.isCreate
            = st.trace.filter Event.isCreate
        ∧ (resolveTarget api st release).1.failed = st.failed) := by
  rcases hlook : api.getReleaseByTag st.world release.tagName with ⟨w1, res⟩
  cases res with
  | none =>
    constructor
    · simp [ReleaseExists, hlook]
    · intro h
      simp [ReleaseExists, hlook] at h
  | some t =>
    by_cases hmatch : (t.name == release.name && t.targetCommitish == release.targetCommitish) = true
    · have hex : ReleaseExists api st.world release = (w1, some t, true) := by
        simp [ReleaseExists, hlook, hmatch]
      have hm := hmatch
      simp only [Bool.and_eq_true, beq_iff_eq] at hm
      constructor
      · constructor
        · intro _
          exact ⟨t, by simp [hlook], hm.1, hm.2⟩
        · intro _
          simp [hex]
      · intro _
        refine ⟨?_, ?_, ?_⟩
        · simp [resolveTarget, hex, hlook]
        · simp [resolveTarget, hex, addRecord, List.filter_append, Event.isCreate]
        · simp [resolveTarget, hex, addRecord]
    · have hex : ReleaseExists api st.world release = (w1, some t, false) := by
        simp only [ReleaseExists, hlook]
        rw [if_neg hmatch]
      constructor
      · constructor
        · intro h
          rw [hex] at h
          cases h
        · rintro ⟨t', ht', hn, hc⟩
          simp only [Option.some.injEq] at ht'
          cases ht'
          simp [hn, hc] at hmatch
      · intro h
        rw [hex] at h
        cases h

/-- C4: when a release's create call fails with the conflict error
("already exists"), the engine re-fetches the target release by tag; on
success that re-fetched release becomes the resolved target used for
asset transfer and latest tracking, and the failure counter is not
incremented. -/
theorem C4_conflict_refetch_reuse {σ : Type} (api : Api σ) (f1 f2 : String → String)
    (latestID : Int) (st : EngineState σ) (release t : Release)
    (w1 w2 w3 : σ) (ex : Option Release)
    (h1 : ReleaseExists api st.world (transformRelease f1 f2 release) = (w1, ex, false))
    (h2 : api.createRelease w1 (transformRelease f1 f2 release) = CreateResult.conflict w2)
    (h3 : api.getReleaseByTag w2 (transformRelease f1 f2 release).tagName = (w3, some t)) :
    (resolveTarget api st (transformRelease f1 f2 release)).2 = some t
    ∧ (resolveTarget api st (transformRelease f1 f2 release)).1.failed = st.failed
    ∧ (resolveTarget api st (transformRelease f1 f2 release)).1.records
        = st.records ++ [⟨transformRelease f1 f2 release, Branch.conflictReused, some t⟩]
    ∧ processRelease api f1 f2 latestID st release
        = (transformRelease f1 f2 release).assets.foldl (syncAssetStep api t)
            (if latestID != 0 && release.id == latestID then
              { (resolveTarget api st (transformRelease f1 f2 release)).1 with
                newLatestReleaseID := t.id }
             else (resolveTarget api st (transformRelease f1 f2 release)).1) := by
  have hres : resolveTarget api st (transformRelease f1 f2 release)
      = (addRecord
          { st with
            world := w3,
            trace := st.trace
              ++ [Event.getByTagCall (transformRelease f1 f2 release).tagName]
              ++ [Event.createCall (transformRelease f1 f2 release).tagName]
              ++ [Event.getByTagCall (transformRelease f1 f2 release).tagName] }
          (transformRelease f1 f2 release) Branch.conflictReused (some t), some t) := by
    simp only [resolveTarget, h1, h2, h3]
    simp [List.append_assoc]
  refine ⟨by rw [hres], by rw [hres]; simp [addRecord], by rw [hres]; simp [addRecord], ?_⟩
  simp only [processRelease, hres, transformRelease_id]

/-- C4 witness: over a directory that holds a same-tag release with a
different display name and whose create calls conflict, the engine
reuses the re-fetched release without counting a failure. -/
theorem C4_conflict_refetch_reuse_witness :
    ReleaseExists (conflictReuseApi wOther) stU.world (transformRelease id id wRelA)
        = ((), some wOther, false)
    ∧ (conflictReuseApi wOther).createRelease () (transformRelease id id wRelA)
        = CreateResult.conflict ()
    ∧ (conflictReuseApi wOther).getReleaseByTag ()
        (transformRelease id id wRelA).tagName = ((), some wOther)
    ∧ ((resolveTarget (conflictReuseApi wOther) stU (transformRelease id id wRelA)).2
          = some wOther
       ∧ (resolveTarget (conflictReuseApi wOther) stU (transformRelease id id wRelA)).1.failed
          = stU.failed
       ∧ (resolveTarget (conflictReuseApi wOther) stU (transformRelease id id wRelA)).1.records
          = stU.records
            ++ [⟨transformRelease id id wRelA, Branch.conflictReused, some wOther⟩]
       ∧ processRelease (conflictReuseApi wOther) id id 10 stU wRelA
          = (transformRelease id id wRelA).assets.foldl
              (syncAssetStep (conflictReuseApi wOther) wOther)
              (if (10 : Int) != 0 && wRelA.id == 10 then
                { (resolveTarget (conflictReuseApi wOther) stU
                    (transformRelease id id wRelA)).1 with
                  newLatestReleaseID := wOther.id }
               else (resolveTarget (conflictReuseApi wOther) stU
                     (transformRelease id id wRelA)).1)) :=
  ⟨by decide, by decide, by decide,
   C4_conflict_refetch_reuse (conflictReuseApi wOther) id id 10 stU wRelA wOther
     () () () (some wOther) (by decide) (by decide) (by decide)⟩

/-- C10: when the create call conflicts and the re-fetch by tag also
fails, the engine skips the whole release — no asset download or
upload, no latest-tracking update — without incrementing the failure
counter, recording the release as neither created nor matched. -/
theorem C10_conflict_refetch_failure_skips {σ : Type} (api : Api σ)
    (f1 f2 : String → String) (latestID : Int) (st : EngineState σ) (release : Release)
    (w1 w2 w3 : σ) (ex : Option Release)
    (h1 : ReleaseExists api st.world (transformRelease f1 f2 release) = (w1, ex, false))
    (h2 : api.createRelease w1 (transformRelease f1 f2 release) = CreateResult.conflict w2)
    (h3 : api.getReleaseByTag w2 (transformRelease f1 f2 release).tagName = (w3, none)) :
    processRelease api f1 f2 latestID st release
      = (resolveTarget api st (transformRelease f1 f2 release)).1
    ∧ (processRelease api f1 f2 latestID st release).failed = st.failed
    ∧ (processRelease api f1 f2 latestID st release).records
        = st.records ++ [⟨transformRelease f1 f2 release, Branch.conflictSkipped, none⟩]
    ∧ (processRelease api f1 f2 latestID st release).trace.filter Event.isDownload
        = st.trace.filter Event.isDownload
    ∧ (processRelease api f1 f2 latestID st release).trace.filter Event.isUpload
        = st.trace.filter Event.isUpload
    ∧ (processRelease api f1 f2 latestID st release).newLatestReleaseID
        = st.newLatestReleaseID := by
  have hres : resolveTarget api st (transformRelease f1 f2 release)
      = (addRecord
          { st with
            world := w3,
            trace := st.trace
              ++ [Event.getByTagCall (transformRelease f1 f2 release).tagName]
              ++ [Event.createCall (transformRelease f1 f2 release).tagName]
              ++ [Event.getByTagCall (transformRelease f1 f2 release).tagName] }
          (transformRelease f1 f2 release) Branch.conflictSkipped none, none) := by
    simp only [resolveTarget, h1, h2, h3]
    simp [List.append_assoc]
  have hp : processRelease api f1 f2 latestID st release
      = (resolveTarget api st (transformRelease f1 f2 release)).1 := by
    simp only [processRelease, hres]
  refine ⟨hp, ?_, ?_, ?_, ?_, ?_⟩ <;>
    rw [hp, hres] <;>
    simp [addRecord, List.filter_append, Event.isDownload, Event.isUpload]

/-- C10 witness: over a directory where every lookup misses and every
create conflicts, a release is skipped with the failure counter left at
zero. -/
theorem C10_conflict_refetch_failure_skips_witness :
    ReleaseExists conflictLostApi stU.world (transformRelease id id wRelA)
        = ((), none, false)
    ∧ conflictLostApi.createRelease () (transformRelease id id wRelA)
        = CreateResult.conflict ()
    ∧ conflictLostApi.getReleaseByTag () (transformRelease id id wRelA).tagName
        = ((), none)
    ∧ (processRelease conflictLostApi id id 10 stU wRelA
          = (resolveTarget conflictLostApi stU (transformRelease id id wRelA)).1
       ∧ (processRelease conflictLostApi id id 10 stU wRelA).failed = stU.failed
       ∧ (processRelease conflictLostApi id id 10 stU wRelA).records
          = stU.records ++ [⟨transformRelease id id wRelA, Branch.conflictSkipped, none⟩]
       ∧ (processRelease conflictLostApi id id 10 stU wRelA).trace.filter Event.isDownload
          = stU.trace.filter Event.isDownload
       ∧ (processRelease conflictLostApi id id 10 stU wRelA).trace.filter Event.isUpload
          = stU.trace.filter Event.isUpload
       ∧ (processRelease conflictLostApi id id 10 stU wRelA).newLatestReleaseID
          = stU.newLatestReleaseID) :=
  ⟨by decide, by decide, by decide,
   C10_conflict_refetch_failure_skips conflictLostApi id id 10 stU wRelA
     () () () none (by decide) (by decide) (by decide)⟩

/-! ## Accounting lemmas for the release loop -/

theorem syncAssetStep_preserves {σ : Type} (api : Api σ) (nr : Release)
    (st : EngineState σ) (a : Asset) :
    (syncAssetStep api nr st a).failed = st.failed
    ∧ (syncAssetStep api nr st a).records = st.records
    ∧ (syncAssetStep api nr st a).newLatestReleaseID = st.newLatestReleaseID
    ∧ (syncAssetStep api nr st a).trace.filter Event.isCreate
        = st.trace.filter Event.isCreate
    ∧ (syncAssetStep api nr st a).trace.filter Event.isEditLatest
        = st.trace.filter Event.isEditLatest := by
  by_cases h : AssetExists nr a.name a.size = true
  · simp [syncAssetStep, h]
  · simp only [Bool.not_eq_true] at h
    cases hdl : (api.download st.world a).2 <;>
      simp [syncAssetStep, h, hdl, List.filter_append, Event.isCreate, Event.isEditLatest]

theorem foldAssets_preserves {σ : Type} (api : Api σ) (nr : Release)
    (assets : List Asset) (st : EngineState σ) :
    (assets.foldl (syncAssetStep api nr) st).failed = st.failed
    ∧ (assets.foldl (syncAssetStep api nr) st).records = st.records
    ∧ (assets.foldl (syncAssetStep api nr) st).newLatestReleaseID
        = st.newLatestReleaseID
    ∧ (assets.foldl (syncAssetStep api nr) st).trace.filter Event.isCreate
        = st.trace.filter Event.isCreate
    ∧ (assets.foldl (syncAssetStep api nr) st).trace.filter Event.isEditLatest
        = st.trace.filter Event.isEditLatest := by
  induction assets generalizing st with
  | nil => exact ⟨rfl, rfl, rfl, rfl, rfl⟩
  | cons a rest ih =>
    obtain ⟨h1, h2, h3, h4, h5⟩ := syncAssetStep_preserves api nr st a
    obtain ⟨g1, g2, g3, g4, g5⟩ := ih (syncAssetStep api nr st a)
    rw [List.foldl_cons]
    exact ⟨g1.trans h1, g2.trans h2, g3.trans h3, g4.trans h4, g5.trans h5⟩

theorem foldAssets_failed {σ : Type} (api : Api σ) (nr : Release)
    (assets : List Asset) (st : EngineState σ) :
    (assets.foldl (syncAssetStep api nr) st).failed = st.failed :=
  (foldAssets_preserves api nr assets st).1

theorem foldAssets_records {σ : Type} (api : Api σ) (nr : Release)
    (assets : List Asset) (st : EngineState σ) :
    (assets.foldl (syncAssetStep api nr) st).records = st.records :=
  (foldAssets_preserves api nr assets st).2.1

theorem foldAssets_newLatest {σ : Type} (api : Api σ) (nr : Release)
    (assets : List Asset) (st : EngineState σ) :
    (assets.foldl (syncAssetStep api nr) st).newLatestReleaseID
      = st.newLatestReleaseID :=
  (foldAssets_preserves api nr assets st).2.2.1

theorem foldAssets_filter_isCreate {σ : Type} (api : Api σ) (nr : Release)
    (assets : List Asset) (st : EngineState σ) :
    (assets.foldl (syncAssetStep api nr) st).trace.filter Event.isCreate
      = st.trace.filter Event.isCreate :=
  (foldAssets_preserves api nr assets st).2.2.2.1

theorem foldAssets_filter_isEditLatest {σ : Type} (api : Api σ) (nr : Release)
    (assets : List Asset) (st : EngineState σ) :
    (assets.foldl (syncAssetStep api nr) st).trace.filter Event.isEditLatest
      = st.trace.filter Event.isEditLatest :=
  (foldAssets_preserves api nr assets st).2.2.2.2

/-- One release-loop iteration, summarized: it appends exactly one
record (whose source is the transformed release), bumps the failure
counter exactly on the non-conflict create failure (which resolves no
target), updates the latest-candidate by `latestStep`, and issues no
edit-latest call. -/
theorem processRelease_spec {σ : Type} (api : Api σ) (f1 f2 : String → String)
    (latestID : Int) (st : EngineState σ) (release : Release) :
    ∃ rec : RelRecord,
      rec.src = transformRelease f1 f2 release
      ∧ (processRelease api f1 f2 latestID st release).records = st.records ++ [rec]
      ∧ (processRelease api f1 f2 latestID st release).failed
          = st.failed + (if rec.branch = Branch.createFailed then 1 else 0)
      ∧ (rec.branch = Branch.createFailed → rec.resolved = none)
      ∧ (processRelease api f1 f2 latestID st release).newLatestReleaseID
          = latestStep latestID st.newLatestReleaseID rec
      ∧ (processRelease api f1 f2 latestID st release).trace.filter Event.isEditLatest
          = st.trace.filter Event.isEditLatest := by
  rcases hex : ReleaseExists api st.world (transformRelease f1 f2 release)
    with ⟨w1, ex, b⟩
  cases b with
  | true =>
    cases ex with
    | none =>
      refine ⟨⟨transformRelease f1 f2 release, Branch.matched, none⟩,
        rfl, ?_, ?_, ?_, ?_, ?_⟩ <;>
        simp [processRelease, resolveTarget, hex, addRecord, latestStep,
          List.filter_append, Event.isEditLatest]
    | some t =>
      refine ⟨⟨transformRelease f1 f2 release, Branch.matched, some t⟩,
        rfl, ?_, ?_, ?_, ?_, ?_⟩ <;>
        by_cases hcond : (latestID != 0 && release.id == latestID) = true <;>
        simp [processRelease, resolveTarget, hex, addRecord, hcond, latestStep,
          foldAssets_failed, foldAssets_records, foldAssets_newLatest,
          foldAssets_filter_isEditLatest, List.filter_append, Event.isEditLatest]
  | false =>
    cases hc : api.createRelease w1 (transformRelease f1 f2 release) with
    | ok w2 nr =>
      refine ⟨⟨transformRelease f1 f2 release, Branch.created, some nr⟩,
        rfl, ?_, ?_, ?_, ?_, ?_⟩ <;>
        by_cases hcond : (latestID != 0 && release.id == latestID) = true <;>
        simp [processRelease, resolveTarget, hex, hc, addRecord, hcond, latestStep,
          foldAssets_failed, foldAssets_records, foldAssets_newLatest,
          foldAssets_filter_isEditLatest, List.filter_append, Event.isEditLatest]
    | conflict w2 =>
      rcases hg : api.getReleaseByTag w2 (transformRelease f1 f2 release).tagName
        with ⟨w3, og⟩
      rw [transformRelease_tagName] at hg
      cases og with
      | none =>
        refine ⟨⟨transformRelease f1 f2 release, Branch.conflictSkipped, none⟩,
          rfl, ?_, ?_, ?_, ?_, ?_⟩ <;>
          simp [processRelease, resolveTarget, hex, hc, hg, addRecord, latestStep,
            List.filter_append, Event.isEditLatest]
      | some t =>
        refine ⟨⟨transformRelease f1 f2 release, Branch.conflictReused, some t⟩,
          rfl, ?_, ?_, ?_, ?_, ?_⟩ <;>
          by_cases hcond : (latestID != 0 && release.id == latestID) = true <;>
          simp [processRelease, resolveTarget, hex, hc, hg, addRecord, hcond, latestStep,
            foldAssets_failed, foldAssets_records, foldAssets_newLatest,
            foldAssets_filter_isEditLatest, List.filter_append, Event.isEditLatest]
    | failed w2 =>
      refine ⟨⟨transformRelease f1 f2 release, Branch.createFailed, none⟩,
        rfl, ?_, ?_, ?_, ?_, ?_⟩ <;>
        simp [processRelease, resolveTarget, hex, hc, addRecord, latestStep,
          List.filter_append, Event.isEditLatest]

/-- The whole release loop, summarized record by record. -/
theorem foldReleases_spec {σ : Type} (api : Api σ) (f1 f2 : String → String)
    (latestID : Int) (releases : List Release) (st : EngineState σ) :
    ∃ recs : List RelRecord,
      (releases.foldl (processRelease api f1 f2 latestID) st).records
          = st.records ++ recs
      ∧ recs.map RelRecord.src = releases.map (transformRelease f1 f2)
      ∧ (releases.foldl (processRelease api f1 f2 latestID) st).failed
          = st.failed + (recs.filter fun rec => rec.branch == Branch.createFailed).length
      ∧ (∀ rec ∈ recs, rec.branch = Branch.createFailed → rec.resolved = none)
      ∧ (releases.foldl (processRelease api f1 f2 latestID) st).newLatestReleaseID
          = recs.foldl (latestStep latestID) st.newLatestReleaseID
      ∧ (releases.foldl (processRelease api f1 f2 latestID) st).trace.filter
            Event.isEditLatest
          = st.trace.filter Event.isEditLatest := by
  induction releases generalizing st with
  | nil => exact ⟨[], by simp, rfl, by simp, by simp, rfl, rfl⟩
  | cons r rest ih =>
    obtain ⟨rec, hsrc, hrecords, hfailed, hcf, hlat, hed⟩ :=
      processRelease_spec api f1 f2 latestID st r
    obtain ⟨recs, grecords, gsrc, gfailed, gcf, glat, ged⟩ :=
      ih (processRelease api f1 f2 latestID st r)
    refine ⟨rec :: recs, ?_, ?_, ?_, ?_, ?_, ?_⟩
    · rw [List.foldl_cons, grecords, hrecords, List.append_assoc]
      rfl
    · simp [gsrc, hsrc]
    · rw [List.foldl_cons, gfailed, hfailed]
      by_cases h : rec.branch = Branch.createFailed <;>
        simp [h, Nat.add_assoc, Nat.add_comm]
    · intro rec' h'
      rcases List.mem_cons.mp h' with rfl | h'
      · exact hcf
      · exact gcf rec' h'
    · rw [List.foldl_cons, glat, hlat]
      rfl
    · rw [List.foldl_cons, ged, hed]

/-- How the returned value of `migrateRepositoryReleases` relates to
the state after the release loop: the trailing edit-latest step touches
only the world and the trace. -/
theorem migrate_components {σ : Type} (api : Api σ) (f1 f2 : String → String)
    (releases : List Release) (latestRelease : Option Release) (w : σ) :
    (migrateRepositoryReleases api f1 f2 releases latestRelease w).1.records
        = (releases.foldl
            (processRelease api f1 f2
              (latestIDOf latestRelease))
            { world := w, failed := 0, newLatestReleaseID := 0, trace := [],
              records := [] }).records
    ∧ (migrateRepositoryReleases api f1 f2 releases latestRelease w).2.1
        = releases.length
    ∧ (migrateRepositoryReleases api f1 f2 releases latestRelease w).2.2
        = (releases.foldl
            (processRelease api f1 f2
              (latestIDOf latestRelease))
            { world := w, failed := 0, newLatestReleaseID := 0, trace := [],
              records := [] }).failed
    ∧ (migrateRepositoryReleases api f1 f2 releases latestRelease w).1.trace
        = (if (releases.foldl
              (processRelease api f1 f2
                (latestIDOf latestRelease))
              { world := w, failed := 0, newLatestReleaseID := 0, trace := [],
                records := [] }).newLatestReleaseID != 0 then
            (releases.foldl
              (processRelease api f1 f2
                (latestIDOf latestRelease))
              { world := w, failed := 0, newLatestReleaseID := 0, trace := [],
                records := [] }).trace
            ++ [Event.editLatestCall
                 (releases.foldl
                   (processRelease api f1 f2
                     (latestIDOf latestRelease))
                   { world := w, failed := 0, newLatestReleaseID := 0, trace := [],
                     records := [] }).newLatestReleaseID]
           else
            (releases.foldl
              (processRelease api f1 f2
                (latestIDOf latestRelease))
              { world := w, failed := 0, newLatestReleaseID := 0, trace := [],
                records := [] }).trace)
    ∧ (migrateRepositoryReleases api f1 f2 releases latestRelease w).1.world
        = (if (releases.foldl
              (processRelease api f1 f2
                (latestIDOf latestRelease))
              { world := w, failed := 0, newLatestReleaseID := 0, trace := [],
                records := [] }).newLatestReleaseID != 0 then
            (api.editLatest
              (releases.foldl
                (processRelease api f1 f2
                  (latestIDOf latestRelease))
                { world := w, failed := 0, newLatestReleaseID := 0, trace := [],
                  records := [] }).world
              (releases.foldl
                (processRelease api f1 f2
                  (latestIDOf latestRelease))
                { world := w, failed := 0, newLatestReleaseID := 0, trace := [],
                  records := [] }).newLatestReleaseID).1
           else
            (releases.foldl
              (processRelease api f1 f2
                (latestIDOf latestRelease))
              { world := w, failed := 0, newLatestReleaseID := 0, trace := [],
                records := [] }).world) := by
  by_cases h : ((releases.foldl
      (processRelease api f1 f2
        (latestIDOf latestRelease))
      { world := w, failed := 0, newLatestReleaseID := 0, trace := [],
        records := [] }).newLatestReleaseID != 0) = true <;>
    simp [migrateRepositoryReleases, h]

/-- C5: the run processes every listed release in order (one record per
source release even after a failure), the returned total is the number
of source releases, the returned failure count is exactly the number of
releases whose create call failed with a non-conflict error, and such a
release resolves no target, so its asset transfer is skipped
(the loop body reduces to the resolution step alone). -/
theorem C5_partial_failure_isolation {σ : Type} (api : Api σ) (f1 f2 : String → String)
    (releases : List Release) (latestRelease : Option Release) (w : σ) :
    (migrateRepositoryReleases api f1 f2 releases latestRelease w).2.1
        = releases.length
    ∧ (migrateRepositoryReleases api f1 f2 releases latestRelease w).1.records.map
          RelRecord.src
        = releases.map (transformRelease f1 f2)
    ∧ (migrateRepositoryReleases api f1 f2 releases latestRelease w).2.2
        = ((migrateRepositoryReleases api f1 f2 releases latestRelease w).1.records.filter
            fun rec => rec.branch == Branch.createFailed).length
    ∧ (∀ rec ∈ (migrateRepositoryReleases api f1 f2 releases latestRelease w).1.records,
        rec.branch = Branch.createFailed → rec.resolved = none)
    ∧ ∀ (latestID : Int) (st : EngineState σ) (r : Release),
        (resolveTarget api st (transformRelease f1 f2 r)).2 = none →
        processRelease api f1 f2 latestID st r
          = (resolveTarget api st (transformRelease f1 f2 r)).1 := by
  obtain ⟨recs, hrecords, hsrc, hfailed, hcf, hlat, hed⟩ :=
    foldReleases_spec api f1 f2
      (latestIDOf latestRelease) releases
      { world := w, failed := 0, newLatestReleaseID := 0, trace := [], records := [] }
  obtain ⟨mrec, mtotal, mfailed, _, _⟩ :=
    migrate_components api f1 f2 releases latestRelease w
  have hkeep1 :
      (migrateRepositoryReleases api f1 f2 releases latestRelease w).1.records
        = recs := by
    rw [mrec, hrecords]
    simp
  have hkeep2 :
      (migrateRepositoryReleases api f1 f2 releases latestRelease w).2.2
        = (recs.filter fun rec => rec.branch == Branch.createFailed).length := by
    rw [mfailed, hfailed]
    simp
  refine ⟨mtotal, ?_, ?_, ?_, ?_⟩
  · rw [hkeep1, hsrc]
  · rw [hkeep1, hkeep2]
  · rw [hkeep1]
    exact hcf
  · intro latestID st r h
    rcases hres : resolveTarget api st (transformRelease f1 f2 r) with ⟨st', o⟩
    rw [hres] at h
    simp only at h
    subst h
    simp [processRelease, hres]

/-! ## Latest-candidate fold lemmas -/

theorem latestStep_eq_of_not_match (latestID acc : Int) (rec : RelRecord)
    (h : ¬(rec.src.id = latestID ∧ rec.resolved ≠ none)) :
    latestStep latestID acc rec = acc := by
  by_cases h1 : (latestID != 0 && rec.src.id == latestID) = true
  · cases hres : rec.resolved with
    | none => simp [latestStep, h1, hres]
    | some t =>
      exfalso
      apply h
      simp only [Bool.and_eq_true, beq_iff_eq] at h1
      exact ⟨h1.2, by simp [hres]⟩
  · simp [latestStep, h1]

theorem latestFold_pos (latestID : Int) (recs : List RelRecord) :
    ∀ acc : Int, (∀ rec ∈ recs, ∀ t, rec.resolved = some t → 1 ≤ t.id) → 1 ≤ acc →
      1 ≤ recs.foldl (latestStep latestID) acc := by
  induction recs with
  | nil => exact fun acc _ hacc => hacc
  | cons rec rest ih =>
    intro acc hpos hacc
    rw [List.foldl_cons]
    refine ih _ (fun r hr => hpos r (List.mem_cons_of_mem _ hr)) ?_
    by_cases h1 : (latestID != 0 && rec.src.id == latestID) = true
    · cases hres : rec.resolved with
      | none => simpa [latestStep, h1, hres] using hacc
      | some t =>
        have := hpos rec (List.mem_cons_self _ _) t hres
        simpa [latestStep, h1, hres] using this
    · simpa [latestStep, h1] using hacc

theorem latestFold_pos_of_match (latestID : Int) (hL : latestID ≠ 0)
    (recs : List RelRecord) :
    ∀ acc : Int, (∀ rec ∈ recs, ∀ t, rec.resolved = some t → 1 ≤ t.id) →
      (∃ rec ∈ recs, rec.src.id = latestID ∧ rec.resolved ≠ none) →
      1 ≤ recs.foldl (latestStep latestID) acc := by
  induction recs with
  | nil =>
    rintro acc _ ⟨rec, hmem, _⟩
    cases hmem
  | cons rec rest ih =>
    rintro acc hpos ⟨r, hmem, hid, hres⟩
    rw [List.foldl_cons]
    by_cases hm : rec.src.id = latestID ∧ rec.resolved ≠ none
    · obtain ⟨hid0, hres0⟩ := hm
      obtain ⟨t, ht⟩ := Option.ne_none_iff_exists.mp hres0
      have hstep : latestStep latestID acc rec = t.id := by
        simp [latestStep, hid0, hL, ← ht]
      rw [hstep]
      exact latestFold_pos latestID rest _
        (fun r' hr' => hpos r' (List.mem_cons_of_mem _ hr'))
        (hpos rec (List.mem_cons_self _ _) t ht.symm)
    · rw [latestStep_eq_of_not_match latestID acc rec hm]
      rcases List.mem_cons.mp hmem with rfl | hmem'
      · exact absurd ⟨hid, hres⟩ hm
      · exact ih _ (fun r' hr' => hpos r' (List.mem_cons_of_mem _ hr'))
          ⟨r, hmem', hid, hres⟩

theorem latestFold_cases (latestID : Int) (recs : List RelRecord) :
    ∀ acc : Int,
      recs.foldl (latestStep latestID) acc = acc
      ∨ ∃ rec ∈ recs, ∃ t, rec.src.id = latestID ∧ rec.resolved = some t
          ∧ recs.foldl (latestStep latestID) acc = t.id := by
  induction recs with
  | nil => exact fun acc => Or.inl rfl
  | cons rec rest ih =>
    intro acc
    rw [List.foldl_cons]
    by_cases h1 : (latestID != 0 && rec.src.id == latestID) = true
    · cases hres : rec.resolved with
      | none =>
        have hstep : latestStep latestID acc rec = acc := by
          simp [latestStep, h1, hres]
        rw [hstep]
        rcases ih acc with h | ⟨r, hr, t, ha, hb, hc⟩
        · exact Or.inl h
        · exact Or.inr ⟨r, List.mem_cons_of_mem _ hr, t, ha, hb, hc⟩
      | some t =>
        have hstep : latestStep latestID acc rec = t.id := by
          simp [latestStep, h1, hres]
        rw [hstep]
        have hid : rec.src.id = latestID := by
          simp only [Bool.and_eq_true, beq_iff_eq] at h1
          exact h1.2
        rcases ih t.id with h | ⟨r, hr, t', ha, hb, hc⟩
        · exact Or.inr ⟨rec, List.mem_cons_self _ _, t, hid, hres, h⟩
        · exact Or.inr ⟨r, List.mem_cons_of_mem _ hr, t', ha, hb, hc⟩
    · have hstep : latestStep latestID acc rec = acc := by
        simp [latestStep, h1]
      rw [hstep]
      rcases ih acc with h | ⟨r, hr, t, ha, hb, hc⟩
      · exact Or.inl h
      · exact Or.inr ⟨r, List.mem_cons_of_mem _ hr, t, ha, hb, hc⟩

/-! ## The well-behaved server preserves well-formedness -/

theorem ReleaseExists_goodApi_of_find?_none {w : ServerState} {r : Release}
    (hf : w.releases.find? (fun u => u.tagName == r.tagName) = none) :
    ReleaseExists goodApi w r = (w, none, false) := by
  simp [ReleaseExists, goodApi, serverGetByTag, hf]

theorem ReleaseExists_goodApi_of_find?_some {w : ServerState} {r t : Release}
    (hf : w.releases.find? (fun u => u.tagName == r.tagName) = some t) :
    ReleaseExists goodApi w r
      = (w, some t,
         t.name == r.name && t.targetCommitish == r.targetCommitish) := by
  by_cases hm : (t.name == r.name && t.targetCommitish == r.targetCommitish) = true <;>
    simp [ReleaseExists, goodApi, serverGetByTag, hf, hm]

theorem serverCreate_of_find?_none {w : ServerState} {r : Release}
    (hf : w.releases.find? (fun u => u.tagName == r.tagName) = none) :
    serverCreate w r
      = CreateResult.ok
          { releases := w.releases ++ [freshRelease w.nextId r],
            nextId := w.nextId + 1 }
          (freshRelease w.nextId r) := by
  have hany : (w.releases.any fun u => u.tagName == r.tagName) = false :=
    List.any_eq_false.mpr (List.find?_eq_none.mp hf)
  simp [serverCreate, hany, freshRelease]

theorem serverCreate_of_find?_some {w : ServerState} {r t : Release}
    (hf : w.releases.find? (fun u => u.tagName == r.tagName) = some t) :
    serverCreate w r = CreateResult.conflict w := by
  have hp : (t.tagName == r.tagName) = true := by
    simpa using List.find?_some hf
  have hany : (w.releases.any fun u => u.tagName == r.tagName) = true :=
    List.any_eq_true.mpr ⟨t, List.mem_of_find?_eq_some hf, hp⟩
  simp [serverCreate, hany]

theorem serverUpload_WF {w : ServerState} (hWF : w.WF) (url : Int) (a : Asset) :
    ((serverUpload w url a).1).WF := by
  obtain ⟨h1, h2⟩ := hWF
  refine ⟨h1, ?_⟩
  intro r hr
  simp only [serverUpload, List.mem_map] at hr
  obtain ⟨r0, hr0, hmap⟩ := hr
  by_cases hc : (r0.uploadURL == url) = true <;>
    simp only [hc, if_true, if_false, Bool.false_eq_true] at hmap <;>
    subst hmap
  · exact h2 r0 hr0
  · exact h2 r0 hr0

theorem syncAssetStep_goodApi_WF (nr : Release) (st : EngineState ServerState)
    (a : Asset) (hWF : st.world.WF) :
    ((syncAssetStep goodApi nr st a).world).WF := by
  by_cases h : AssetExists nr a.name a.size = true
  · simpa [syncAssetStep, h] using hWF
  · have hw : (syncAssetStep goodApi nr st a).world
        = (serverUpload st.world nr.uploadURL a).1 := by
      simp [syncAssetStep, h, goodApi]
    rw [hw]
    exact serverUpload_WF hWF _ _

theorem foldAssets_goodApi_WF (nr : Release) (assets : List Asset) :
    ∀ st : EngineState ServerState, st.world.WF →
      ((assets.foldl (syncAssetStep goodApi nr) st).world).WF := by
  induction assets with
  | nil => exact fun st h => h
  | cons a rest ih =>
    intro st hWF
    rw [List.foldl_cons]
    exact ih _ (syncAssetStep_goodApi_WF nr st a hWF)

theorem tail_StWF (t : Release) (assets : List Asset) (stMid : EngineState ServerState)
    (hWF : stMid.world.WF)
    (hrecs : ∀ rec ∈ stMid.records, ∀ u, rec.resolved = some u → 1 ≤ u.id) :
    StWF (assets.foldl (syncAssetStep goodApi t) stMid) :=
  ⟨foldAssets_goodApi_WF t assets stMid hWF,
   by rw [foldAssets_records]; exact hrecs⟩

theorem processRelease_goodApi_StWF (f1 f2 : String → String) (latestID : Int)
    (st : EngineState ServerState) (release : Release) (h : StWF st) :
    StWF (processRelease goodApi f1 f2 latestID st release) := by
  obtain ⟨hWF, hrecs⟩ := h
  cases hf : st.world.releases.find?
      (fun u => u.tagName == (transformRelease f1 f2 release).tagName) with
  | none =>
    have hex := ReleaseExists_goodApi_of_find?_none (r := transformRelease f1 f2 release) hf
    have hcr := serverCreate_of_find?_none (r := transformRelease f1 f2 release) hf
    have hproj : goodApi.createRelease = serverCreate := rfl
    simp only [processRelease, resolveTarget, hex, hproj, hcr, Bool.false_eq_true,
      if_false]
    split <;>
    · refine tail_StWF _ _ _ ⟨?_, ?_⟩ ?_
      · simp only [addRecord]
        have h1 := hWF.1
        omega
      · simp only [addRecord]
        intro u hu
        rcases List.mem_append.mp hu with hu | hu
        · exact hWF.2 u hu
        · simp only [List.mem_singleton] at hu
          subst hu
          exact hWF.1
      · simp only [addRecord]
        intro rec hrec
        rcases List.mem_append.mp hrec with hrec | hrec
        · exact hrecs rec hrec
        · simp only [List.mem_singleton] at hrec
          subst hrec
          intro u hu
          cases hu
          exact hWF.1
  | some t =>
    have hmem := List.mem_of_find?_eq_some hf
    have htpos : 1 ≤ t.id := hWF.2 t hmem
    have hex := ReleaseExists_goodApi_of_find?_some (r := transformRelease f1 f2 release) hf
    have hgoal : ∀ stMid : EngineState ServerState, stMid.world = st.world →
        stMid.records = st.records
          ++ [⟨transformRelease f1 f2 release, Branch.matched, some t⟩]
        ∨ stMid.records = st.records
          ++ [⟨transformRelease f1 f2 release, Branch.conflictReused, some t⟩] →
        StWF ((transformRelease f1 f2 release).assets.foldl
          (syncAssetStep goodApi t) stMid) := by
      intro stMid hw hr
      refine tail_StWF _ _ _ (hw ▸ hWF) ?_
      intro rec hrec
      rcases hr with hr | hr <;>
      · rw [hr] at hrec
        rcases List.mem_append.mp hrec with hrec | hrec
        · exact hrecs rec hrec
        · simp only [List.mem_singleton] at hrec
          subst hrec
          intro u hu
          cases hu
          exact htpos
    by_cases hm : (t.name == (transformRelease f1 f2 release).name
        && t.targetCommitish == (transformRelease f1 f2 release).targetCommitish) = true
    · rw [hm] at hex
      simp only [processRelease, resolveTarget, hex, if_true]
      split <;> exact hgoal _ rfl (Or.inl (by simp [addRecord]))
    · rw [Bool.not_eq_true] at hm
      rw [hm] at hex
      have hcr := serverCreate_of_find?_some (r := transformRelease f1 f2 release) hf
      have hproj : goodApi.createRelease = serverCreate := rfl
      have hget : goodApi.getReleaseByTag st.world
          (transformRelease f1 f2 release).tagName = (st.world, some t) := by
        simp only [goodApi, serverGetByTag, Prod.mk.injEq, true_and]
        exact hf
      simp only [processRelease, resolveTarget, hex, hproj, hcr, hget,
        Bool.false_eq_true, if_false]
      split <;> exact hgoal _ rfl (Or.inr (by simp [addRecord]))

theorem foldReleases_goodApi_StWF (f1 f2 : String → String) (latestID : Int)
    (releases : List Release) :
    ∀ st : EngineState ServerState, StWF st →
      StWF (releases.foldl (processRelease goodApi f1 f2 latestID) st) := by
  induction releases with
  | nil => exact fun st h => h
  | cons r rest ih =>
    intro st h
    rw [List.foldl_cons]
    exact ih _ (processRelease_goodApi_StWF f1 f2 latestID st r h)

theorem latestStep_zero (acc : Int) (rec : RelRecord) : latestStep 0 acc rec = acc := by
  simp [latestStep]

theorem latestFold_zero (recs : List RelRecord) :
    ∀ acc : Int, recs.foldl (latestStep 0) acc = acc := by
  induction recs with
  | nil => exact fun _ => rfl
  | cons rec rest ih =>
    intro acc
    rw [List.foldl_cons, latestStep_zero]
    exact ih acc

/-- C6: in any run at most one edit-latest call is issued; over a
well-formed target it is issued exactly when the source's latest
release was captured (fetch succeeded, nonzero id) and some source
release with that id resolved to a target release, the call targets
that resolved target-side counterpart, and no call is issued when
fetching the source's latest release failed. -/
theorem C6_latest_edit_discipline (f1 f2 : String → String) (releases : List Release)
    (latestRelease : Option Release) (w : ServerState) (hWF : w.WF) :
    ((migrateRepositoryReleases goodApi f1 f2 releases latestRelease w).1.trace.filter
        Event.isEditLatest).length ≤ 1
    ∧ (latestRelease = none →
        (migrateRepositoryReleases goodApi f1 f2 releases latestRelease w).1.trace.filter
          Event.isEditLatest = [])
    ∧ ∀ L : Release, latestRelease = some L → L.id ≠ 0 →
        (((migrateRepositoryReleases goodApi f1 f2 releases latestRelease w).1.trace.filter
            Event.isEditLatest ≠ []
          ↔ ∃ rec ∈ (migrateRepositoryReleases goodApi f1 f2 releases
                latestRelease w).1.records,
              rec.src.id = L.id ∧ rec.resolved ≠ none)
         ∧ ∀ e ∈ (migrateRepositoryReleases goodApi f1 f2 releases
              latestRelease w).1.trace.filter Event.isEditLatest,
            ∃ rec ∈ (migrateRepositoryReleases goodApi f1 f2 releases
                latestRelease w).1.records,
              ∃ t, rec.src.id = L.id ∧ rec.resolved = some t
                ∧ e = Event.editLatestCall t.id) := by
  set m := migrateRepositoryReleases goodApi f1 f2 releases latestRelease w with hmdef
  set stF := releases.foldl
      (processRelease goodApi f1 f2
        (latestIDOf latestRelease))
      { world := w, failed := 0, newLatestReleaseID := 0, trace := [], records := [] }
    with hstF
  obtain ⟨recs, hrecords, hsrc, hfailed, hcf, hlat, hed⟩ :=
    foldReleases_spec goodApi f1 f2
      (latestIDOf latestRelease) releases
      { world := w, failed := 0, newLatestReleaseID := 0, trace := [], records := [] }
  rw [← hstF] at hrecords hlat hed
  obtain ⟨mrec, _, _, mtrace, _⟩ :=
    migrate_components goodApi f1 f2 releases latestRelease w
  rw [← hmdef] at mrec mtrace
  rw [← hstF] at mrec mtrace
  simp only [List.nil_append] at hrecords
  simp only [List.filter_nil] at hed
  have hStWF : StWF stF := by
    rw [hstF]
    exact foldReleases_goodApi_StWF f1 f2
      (latestIDOf latestRelease) releases
      { world := w, failed := 0, newLatestReleaseID := 0, trace := [], records := [] }
      ⟨hWF, by intro rec hsmall; simp at hsmall⟩
  have hpos : ∀ rec ∈ recs, ∀ t, rec.resolved = some t → 1 ≤ t.id := by
    intro rec hr
    exact hStWF.2 rec (by rw [hrecords]; exact hr)
  by_cases hv : (stF.newLatestReleaseID != 0) = true
  · have hefilter : m.1.trace.filter Event.isEditLatest
        = [Event.editLatestCall stF.newLatestReleaseID] := by
      rw [mtrace, if_pos hv, List.filter_append, hed]
      simp [Event.isEditLatest]
    have hvne : stF.newLatestReleaseID ≠ 0 := by simpa using hv
    refine ⟨by rw [hefilter]; simp, ?_, ?_⟩
    · intro hnone
      subst hnone
      exfalso
      apply hvne
      rw [hlat]
      exact latestFold_zero recs 0
    · intro L hsome hL
      subst hsome
      have hlat' : stF.newLatestReleaseID = recs.foldl (latestStep L.id) 0 := hlat
      rcases latestFold_cases L.id recs 0 with h0 | ⟨rec, hr, t, ha, hb, hc⟩
      · exact absurd (hlat'.trans h0) hvne
      · refine ⟨⟨fun _ => ⟨rec, by rw [mrec, hrecords]; exact hr, ha, by simp [hb]⟩,
          fun _ => by rw [hefilter]; simp⟩, ?_⟩
        intro e he
        rw [hefilter] at he
        simp only [List.mem_singleton] at he
        refine ⟨rec, by rw [mrec, hrecords]; exact hr, t, ha, hb, ?_⟩
        rw [he, hlat', hc]
  · have hv0 : stF.newLatestReleaseID = 0 := by
      simpa [bne_iff_ne] using hv
    have hefilter : m.1.trace.filter Event.isEditLatest = [] := by
      rw [mtrace, if_neg hv, hed]
    refine ⟨by rw [hefilter]; simp, fun _ => hefilter, ?_⟩
    intro L hsome hL
    subst hsome
    have hlat' : stF.newLatestReleaseID = recs.foldl (latestStep L.id) 0 := hlat
    constructor
    · rw [hefilter]
      constructor
      · intro h
        exact absurd rfl h
      · rintro ⟨rec, hr, hid, hres⟩
        exfalso
        have hr' : rec ∈ recs := by
          rw [mrec, hrecords] at hr
          exact hr
        have := latestFold_pos_of_match L.id hL recs 0 hpos ⟨rec, hr', hid, hres⟩
        rw [← hlat', hv0] at this
        omega
    · intro e he
      rw [hefilter] at he
      cases he

/-- C6 witness: a concrete two-release run from an empty target, with
the second release reported latest by the source. -/
theorem C6_latest_edit_discipline_witness :
    emptyServer.WF
    ∧ (((migrateRepositoryReleases goodApi id id [wRelA, wRelB] (some wRelB)
          emptyServer).1.trace.filter Event.isEditLatest).length ≤ 1
       ∧ (some wRelB = none →
          (migrateRepositoryReleases goodApi id id [wRelA, wRelB] (some wRelB)
            emptyServer).1.trace.filter Event.isEditLatest = [])
       ∧ ∀ L : Release, some wRelB = some L → L.id ≠ 0 →
          (((migrateRepositoryReleases goodApi id id [wRelA, wRelB] (some wRelB)
              emptyServer).1.trace.filter Event.isEditLatest ≠ []
            ↔ ∃ rec ∈ (migrateRepositoryReleases goodApi id id [wRelA, wRelB]
                  (some wRelB) emptyServer).1.records,
                rec.src.id = L.id ∧ rec.resolved ≠ none)
           ∧ ∀ e ∈ (migrateRepositoryReleases goodApi id id [wRelA, wRelB]
                (some wRelB) emptyServer).1.trace.filter Event.isEditLatest,
              ∃ rec ∈ (migrateRepositoryReleases goodApi id id [wRelA, wRelB]
                  (some wRelB) emptyServer).1.records,
                ∃ t, rec.src.id = L.id ∧ rec.resolved = some t
                  ∧ e = Event.editLatestCall t.id)) :=
  ⟨⟨by decide, by intro r hr; simp [emptyServer] at hr⟩,
   C6_latest_edit_discipline id id [wRelA, wRelB] (some wRelB) emptyServer
     ⟨by decide, by intro r hr; simp [emptyServer] at hr⟩⟩

/-! ## Idempotency: the first run builds the target, the second skips -/

theorem foldAssets_all_exist {σ : Type} (api : Api σ) (nr : Release)
    (assets : List Asset) :
    ∀ st : EngineState σ, (∀ a ∈ assets, AssetExists nr a.name a.size = true) →
      assets.foldl (syncAssetStep api nr) st = st := by
  induction assets with
  | nil => exact fun st _ => rfl
  | cons a rest ih =>
    intro st h
    rw [List.foldl_cons]
    have hstep : syncAssetStep api nr st a = st := by
      simp [syncAssetStep, h a (List.mem_cons_self _ _)]
    rw [hstep]
    exact ih st fun a' ha' => h a' (List.mem_cons_of_mem _ ha')

theorem foldAssets_fresh_world (assets : List Asset) (done : List Release) (u : Int)
    (snap : Release) (hsnap : snap.assets = []) (hsu : snap.uploadURL = u)
    (hdone : ∀ d ∈ done, d.uploadURL ≠ u) :
    ∀ (t : Release) (st : EngineState ServerState) (n : Int),
      st.world = ⟨done ++ [t], n⟩ → t.uploadURL = u →
      (assets.foldl (syncAssetStep goodApi snap) st).world
        = ⟨done ++ [{ t with assets := t.assets ++ assets }], n⟩ := by
  induction assets with
  | nil =>
    intro t st n hw _
    simpa using hw
  | cons a rest ih =>
    intro t st n hw htu
    rw [List.foldl_cons]
    have hae := AssetExists_of_assets_nil hsnap a.name a.size
    have hstep : (syncAssetStep goodApi snap st a).world
        = ⟨done ++ [{ t with assets := t.assets ++ [a] }], n⟩ := by
      simp only [syncAssetStep, hae, Bool.false_eq_true, if_false, goodApi, if_true]
      rw [hw]
      simp only [serverUpload, List.map_append]
      congr 1
      congr 1
      · rw [List.map_congr_left (g := fun r => r)]
        · simp
        · intro d hd
          have : (d.uploadURL == snap.uploadURL) = false := by
            rw [hsu]
            simpa using hdone d hd
          simp [this]
      · rw [hsu, ← htu]
        simp
    rw [ih { t with assets := t.assets ++ [a] } (syncAssetStep goodApi snap st a) n
      hstep (by simpa using htu)]
    simp

theorem foldReleases_fresh_world (f1 f2 : String → String) (latestID : Int)
    (srcs : List Release) :
    ∀ (done : List Release) (n : Int) (st : EngineState ServerState),
      st.world = ⟨done, n⟩ →
      (∀ s ∈ srcs, ∀ d ∈ done, d.tagName ≠ s.tagName) →
      srcs.Pairwise (fun a b => a.tagName ≠ b.tagName) →
      (∀ d ∈ done, d.uploadURL < n) →
      (srcs.foldl (processRelease goodApi f1 f2 latestID) st).world
        = ⟨done ++ buildTarget f1 f2 n srcs, n + (srcs.length : Int)⟩ := by
  induction srcs with
  | nil =>
    intro done n st hw _ _ _
    simpa [buildTarget] using hw
  | cons s rest ih =>
    intro done n st hw htags hdis hurl
    rw [List.foldl_cons]
    have hfind : (⟨done, n⟩ : ServerState).releases.find?
        (fun u2 => u2.tagName == (transformRelease f1 f2 s).tagName) = none := by
      apply List.find?_eq_none.mpr
      intro d hd
      simp only [transformRelease_tagName, beq_iff_eq]
      exact htags s (List.mem_cons_self _ _) d hd
    have hex := ReleaseExists_goodApi_of_find?_none
      (w := (⟨done, n⟩ : ServerState)) (r := transformRelease f1 f2 s) hfind
    have hcr := serverCreate_of_find?_none
      (w := (⟨done, n⟩ : ServerState)) (r := transformRelease f1 f2 s) hfind
    have hproj : goodApi.createRelease = serverCreate := rfl
    have hmid : ∀ stMid : EngineState ServerState,
        stMid.world
          = ⟨done ++ [freshRelease n (transformRelease f1 f2 s)], n + 1⟩ →
        ((transformRelease f1 f2 s).assets.foldl
            (syncAssetStep goodApi (freshRelease n (transformRelease f1 f2 s)))
            stMid).world
          = ⟨done ++ [createdRelease f1 f2 n s], n + 1⟩ := by
      intro stMid hmw
      rw [foldAssets_fresh_world (transformRelease f1 f2 s).assets done n
        (freshRelease n (transformRelease f1 f2 s))
        rfl rfl (fun d hd => Int.ne_of_lt (hurl d hd)) _ stMid (n + 1) hmw rfl]
      rfl
    have hproc : (processRelease goodApi f1 f2 latestID st s).world
        = ⟨done ++ [createdRelease f1 f2 n s], n + 1⟩ := by
      simp only [processRelease, resolveTarget, hw, hex, hproj, hcr,
        Bool.false_eq_true, if_false]
      split <;> exact hmid _ (by simp [addRecord])
    have htags' : ∀ s' ∈ rest, ∀ d ∈ done ++ [createdRelease f1 f2 n s],
        d.tagName ≠ s'.tagName := by
      intro s' hs' d hd
      rcases List.mem_append.mp hd with hd | hd
      · exact htags s' (List.mem_cons_of_mem _ hs') d hd
      · simp only [List.mem_singleton] at hd
        subst hd
        exact (List.pairwise_cons.mp hdis).1 s' hs'
    have hurl' : ∀ d ∈ done ++ [createdRelease f1 f2 n s], d.uploadURL < n + 1 := by
      intro d hd
      rcases List.mem_append.mp hd with hd | hd
      · exact lt_trans (hurl d hd) (by omega)
      · simp only [List.mem_singleton] at hd
        subst hd
        simp [createdRelease]
    rw [ih (done ++ [createdRelease f1 f2 n s]) (n + 1)
      (processRelease goodApi f1 f2 latestID st s) hproc htags'
      (List.pairwise_cons.mp hdis).2 hurl']
    simp only [buildTarget, List.append_assoc, List.singleton_append,
      List.length_cons, ServerState.mk.injEq, true_and, and_true]
    push_cast
    ring

theorem foldReleases_all_match (f1 f2 : String → String) (latestID : Int)
    (srcs : List Release) :
    ∀ st : EngineState ServerState,
      (∀ s ∈ srcs, ∃ t,
          st.world.releases.find? (fun u2 => u2.tagName == s.tagName) = some t
          ∧ t.name = s.name ∧ t.targetCommitish = s.targetCommitish
          ∧ ∀ a ∈ s.assets, AssetExists t a.name a.size = true) →
      (srcs.foldl (processRelease goodApi f1 f2 latestID) st).world = st.world
      ∧ (srcs.foldl (processRelease goodApi f1 f2 latestID) st).trace.filter
            Event.isCreate
          = st.trace.filter Event.isCreate
      ∧ (srcs.foldl (processRelease goodApi f1 f2 latestID) st).trace.filter
            Event.isDownload
          = st.trace.filter Event.isDownload
      ∧ (srcs.foldl (processRelease goodApi f1 f2 latestID) st).trace.filter
            Event.isUpload
          = st.trace.filter Event.isUpload := by
  induction srcs with
  | nil => exact fun st _ => ⟨rfl, rfl, rfl, rfl⟩
  | cons s rest ih =>
    intro st h
    obtain ⟨t, hfind, hname, hcommit, hassets⟩ := h s (List.mem_cons_self _ _)
    have hfind' : st.world.releases.find?
        (fun u2 => u2.tagName == (transformRelease f1 f2 s).tagName) = some t := hfind
    have hex := ReleaseExists_goodApi_of_find?_some
      (w := st.world) (r := transformRelease f1 f2 s) hfind'
    have hm : (t.name == (transformRelease f1 f2 s).name
        && t.targetCommitish == (transformRelease f1 f2 s).targetCommitish) = true := by
      simp [hname, hcommit]
    rw [hm] at hex
    have hall : ∀ a ∈ (transformRelease f1 f2 s).assets,
        AssetExists t a.name a.size = true := hassets
    have hproc : (processRelease goodApi f1 f2 latestID st s).world = st.world
        ∧ (processRelease goodApi f1 f2 latestID st s).trace
            = st.trace ++ [Event.getByTagCall (transformRelease f1 f2 s).tagName] := by
      simp only [processRelease, resolveTarget, hex, if_true]
      split <;>
      · rw [foldAssets_all_exist goodApi t (transformRelease f1 f2 s).assets _ hall]
        exact ⟨rfl, by simp [addRecord]⟩
    obtain ⟨ihw, ihc, ihd, ihu⟩ := ih (processRelease goodApi f1 f2 latestID st s)
      (by
        intro s' hs'
        rw [hproc.1]
        exact h s' (List.mem_cons_of_mem _ hs'))
    rw [List.foldl_cons]
    refine ⟨ihw.trans hproc.1, ?_, ?_, ?_⟩
    · rw [ihc, hproc.2, List.filter_append]
      simp [Event.isCreate]
    · rw [ihd, hproc.2, List.filter_append]
      simp [Event.isDownload]
    · rw [ihu, hproc.2, List.filter_append]
      simp [Event.isUpload]

theorem find_buildTarget (f1 f2 : String → String) (srcs : List Release) :
    ∀ n : Int, srcs.Pairwise (fun a b => a.tagName ≠ b.tagName) →
      ∀ s ∈ srcs, ∃ m : Int,
        (buildTarget f1 f2 n srcs).find? (fun u2 => u2.tagName == s.tagName)
          = some (createdRelease f1 f2 m s) := by
  induction srcs with
  | nil =>
    intro n _ s hs
    cases hs
  | cons s0 rest ih =>
    intro n hdis s hs
    rcases List.mem_cons.mp hs with rfl | hmem
    · refine ⟨n, ?_⟩
      simp only [buildTarget]
      apply List.find?_cons_of_pos
      simp [createdRelease]
    · have hne : s0.tagName ≠ s.tagName := (List.pairwise_cons.mp hdis).1 s hmem
      obtain ⟨m, hm⟩ := ih (n + 1) (List.pairwise_cons.mp hdis).2 s hmem
      refine ⟨m, ?_⟩
      simp only [buildTarget]
      rw [List.find?_cons_of_neg]
      · exact hm
      · simp [createdRelease, hne]

theorem migrate_world_goodApi (f1 f2 : String → String) (releases : List Release)
    (latestRelease : Option Release) (w : ServerState) :
    (migrateRepositoryReleases goodApi f1 f2 releases latestRelease w).1.world
      = (releases.foldl (processRelease goodApi f1 f2 (latestIDOf latestRelease))
          { world := w, failed := 0, newLatestReleaseID := 0, trace := [],
            records := [] }).world := by
  obtain ⟨_, _, _, _, mworld⟩ := migrate_components goodApi f1 f2 releases latestRelease w
  rw [mworld]
  split <;> rfl

/-- C1: from an empty target, running the reconciliation twice yields
the same final target release/asset state as running it once; the
second run issues zero createRelease calls, zero downloads and zero
asset uploads, every release passing the tag/name/commitish existence
check and every asset the (name, size) existence check against the
state the first run built. -/
theorem C1_reconciliation_idempotent (f1 f2 : String → String)
    (releases : List Release) (latestRelease : Option Release)
    (hdis : releases.Pairwise fun a b => a.tagName ≠ b.tagName) :
    (migrateRepositoryReleases goodApi f1 f2 releases latestRelease
        (migrateRepositoryReleases goodApi f1 f2 releases latestRelease
          emptyServer).1.world).1.world
      = (migrateRepositoryReleases goodApi f1 f2 releases latestRelease
          emptyServer).1.world
    ∧ (migrateRepositoryReleases goodApi f1 f2 releases latestRelease
        (migrateRepositoryReleases goodApi f1 f2 releases latestRelease
          emptyServer).1.world).1.trace.filter Event.isCreate = []
    ∧ (migrateRepositoryReleases goodApi f1 f2 releases latestRelease
        (migrateRepositoryReleases goodApi f1 f2 releases latestRelease
          emptyServer).1.world).1.trace.filter Event.isDownload = []
    ∧ (migrateRepositoryReleases goodApi f1 f2 releases latestRelease
        (migrateRepositoryReleases goodApi f1 f2 releases latestRelease
          emptyServer).1.world).1.trace.filter Event.isUpload = []
    ∧ ∀ s ∈ releases,
        (ReleaseExists goodApi
          (migrateRepositoryReleases goodApi f1 f2 releases latestRelease
            emptyServer).1.world (transformRelease f1 f2 s)).2.2 = true
        ∧ ∀ a ∈ s.assets, ∃ t,
            (goodApi.getReleaseByTag
              (migrateRepositoryReleases goodApi f1 f2 releases latestRelease
                emptyServer).1.world s.tagName).2 = some t
            ∧ AssetExists t a.name a.size = true := by
  have hrun1 : (migrateRepositoryReleases goodApi f1 f2 releases latestRelease
      emptyServer).1.world
      = ⟨buildTarget f1 f2 1 releases, 1 + (releases.length : Int)⟩ := by
    rw [migrate_world_goodApi]
    have hchar := foldReleases_fresh_world f1 f2 (latestIDOf latestRelease) releases
      [] 1
      { world := emptyServer, failed := 0, newLatestReleaseID := 0, trace := [],
        records := [] }
      rfl (by intro s _ d hd; cases hd) hdis (by intro d hd; cases hd)
    simpa using hchar
  have hmatch : ∀ s ∈ releases, ∃ t,
      (buildTarget f1 f2 1 releases).find? (fun u2 => u2.tagName == s.tagName)
        = some t
      ∧ t.name = s.name ∧ t.targetCommitish = s.targetCommitish
      ∧ ∀ a ∈ s.assets, AssetExists t a.name a.size = true := by
    intro s hs
    obtain ⟨m, hm⟩ := find_buildTarget f1 f2 releases 1 hdis s hs
    refine ⟨createdRelease f1 f2 m s, hm, rfl, rfl, ?_⟩
    intro a ha
    exact AssetExists_of_mem (r := createdRelease f1 f2 m s) ha
  obtain ⟨hw2, hc2, hd2, hu2⟩ :=
    foldReleases_all_match f1 f2 (latestIDOf latestRelease) releases
      { world := (migrateRepositoryReleases goodApi f1 f2 releases latestRelease
          emptyServer).1.world,
        failed := 0, newLatestReleaseID := 0, trace := [], records := [] }
      (by
        intro s hs
        have := hmatch s hs
        simpa [hrun1] using this)
  simp only [List.filter_nil] at hc2 hd2 hu2
  obtain ⟨_, _, _, mtrace2, _⟩ :=
    migrate_components goodApi f1 f2 releases latestRelease
      (migrateRepositoryReleases goodApi f1 f2 releases latestRelease
        emptyServer).1.world
  have hworld2 : (migrateRepositoryReleases goodApi f1 f2 releases latestRelease
      (migrateRepositoryReleases goodApi f1 f2 releases latestRelease
        emptyServer).1.world).1.world
      = (migrateRepositoryReleases goodApi f1 f2 releases latestRelease
          emptyServer).1.world := by
    rw [migrate_world_goodApi, hw2]
  refine ⟨hworld2, ?_, ?_, ?_, ?_⟩
  · rw [mtrace2]
    split
    · rw [List.filter_append, hc2]
      simp [Event.isCreate]
    · exact hc2
  · rw [mtrace2]
    split
    · rw [List.filter_append, hd2]
      simp [Event.isDownload]
    · exact hd2
  · rw [mtrace2]
    split
    · rw [List.filter_append, hu2]
      simp [Event.isUpload]
    · exact hu2
  · intro s hs
    obtain ⟨t, hfind, hname, hcommit, hass⟩ := hmatch s hs
    have hfind' : (migrateRepositoryReleases goodApi f1 f2 releases latestRelease
        emptyServer).1.world.releases.find?
        (fun u2 => u2.tagName == (transformRelease f1 f2 s).tagName) = some t := by
      rw [hrun1]
      exact hfind
    have hex := ReleaseExists_goodApi_of_find?_some
      (w := (migrateRepositoryReleases goodApi f1 f2 releases latestRelease
        emptyServer).1.world)
      (r := transformRelease f1 f2 s) hfind'
    have hm : (t.name == (transformRelease f1 f2 s).name
        && t.targetCommitish == (transformRelease f1 f2 s).targetCommitish)
        = true := by
      simp [hname, hcommit]
    rw [hm] at hex
    constructor
    · rw [hex]
    · intro a ha
      refine ⟨t, ?_, hass a ha⟩
      have : (goodApi.getReleaseByTag
          (migrateRepositoryReleases goodApi f1 f2 releases latestRelease
            emptyServer).1.world s.tagName).2
          = (migrateRepositoryReleases goodApi f1 f2 releases latestRelease
              emptyServer).1.world.releases.find?
              (fun u2 => u2.tagName == s.tagName) := rfl
      rw [this, hrun1]
      exact hfind

/-- C1 witness: the two-release source with assets, run twice from the
empty target. -/
theorem C1_reconciliation_idempotent_witness :
    ([wRelA, wRelB].Pairwise fun a b => a.tagName ≠ b.tagName)
    ∧ ((migrateRepositoryReleases goodApi id id [wRelA, wRelB] (some wRelB)
          (migrateRepositoryReleases goodApi id id [wRelA, wRelB] (some wRelB)
            emptyServer).1.world).1.world
        = (migrateRepositoryReleases goodApi id id [wRelA, wRelB] (some wRelB)
            emptyServer).1.world
       ∧ (migrateRepositoryReleases goodApi id id [wRelA, wRelB] (some wRelB)
          (migrateRepositoryReleases goodApi id id [wRelA, wRelB] (some wRelB)
            emptyServer).1.world).1.trace.filter Event.isCreate = []
       ∧ (migrateRepositoryReleases goodApi id id [wRelA, wRelB] (some wRelB)
          (migrateRepositoryReleases goodApi id id [wRelA, wRelB] (some wRelB)
            emptyServer).1.world).1.trace.filter Event.isDownload = []
       ∧ (migrateRepositoryReleases goodApi id id [wRelA, wRelB] (some wRelB)
          (migrateRepositoryReleases goodApi id id [wRelA, wRelB] (some wRelB)
            emptyServer).1.world).1.trace.filter Event.isUpload = []
       ∧ ∀ s ∈ [wRelA, wRelB],
          (ReleaseExists goodApi
            (migrateRepositoryReleases goodApi id id [wRelA, wRelB] (some wRelB)
              emptyServer).1.world (transformRelease id id s)).2.2 = true
          ∧ ∀ a ∈ s.assets, ∃ t,
              (goodApi.getReleaseByTag
                (migrateRepositoryReleases goodApi id id [wRelA, wRelB] (some wRelB)
                  emptyServer).1.world s.tagName).2 = some t
              ∧ AssetExists t a.name a.size = true) :=
  ⟨by decide,
   C1_reconciliation_idempotent id id [wRelA, wRelB] (some wRelB) (by decide)⟩

end GhMigrateReleases
